import Mathlib

/-!
Verification development for the GLP (Goal Linear Programming) core,
a shallow embedding of src/glp/core.py.

Modelling conventions:
- Python floats are modelled as rationals.
- Python dicts (insertion ordered, string keyed) are association lists;
  a fresh-key insert is an append at the end.
- Python regex character classes are modelled over ASCII, the character
  domain the package uses for identifiers.
- The external PuLP engine is modelled by its documented contract: a
  problem object holding named linear constraints and one objective,
  plus a post-solve valuation of variable symbols.
- A Python method that mutates the model and may raise returns the pair
  of the model state at exit (mutations performed before the raise are
  kept, as in Python) and an Except value for the raise/return.
-/

deriving instance DecidableEq for Except

namespace GLP

/-- Error kinds of the design, plus the engine-level errors the code can
surface.  The first six are the structural kinds of the specification
taxonomy; the remaining ones model Python/PuLP exceptions that are not
part of that taxonomy. -/
inductive ErrorKind
  | DuplicateName
  | UnknownDomain
  | UnsupportedSense
  | InvalidExpression
  | NameCollision
  | EmptyObjective
  | InvalidName
  | TypeErrorComparison
  | TypeErrorNotConstraint
  | PulpOverlap
  | MissingDevVars
deriving DecidableEq

/-- The five structural error kinds named by the no-partial-write policy. -/
def isStructuralKind : ErrorKind → Bool
  | .DuplicateName => true
  | .UnknownDomain => true
  | .UnsupportedSense => true
  | .InvalidExpression => true
  | .NameCollision => true
  | _ => false

/-! ## Name sanitizer (core.py, _sanitize_name) -/

/-- ASCII model of the Python regex word class: letters, digits, underscore. -/
def isPyWordChar (c : Char) : Bool :=
  decide ((97 ≤ c.toNat ∧ c.toNat ≤ 122) ∨ (65 ≤ c.toNat ∧ c.toNat ≤ 90) ∨
    (48 ≤ c.toNat ∧ c.toNat ≤ 57) ∨ c = '_')

/-- ASCII whitespace, the class removed by the Python strip call. -/
def isPySpace (c : Char) : Bool :=
  c == ' ' || c == '\t' || c == '\n' || c == '\r' || c == '\x0b' || c == '\x0c'

/-- Python str.strip over the ASCII model. -/
def pyStrip (l : List Char) : List Char :=
  ((l.dropWhile isPySpace).reverse.dropWhile isPySpace).reverse

/-- Model of a regex substitution replacing every maximal run of
characters satisfying p by a single underscore.  The flag records
whether the previous character belonged to a run. -/
def reSubRuns (p : Char → Bool) : Bool → List Char → List Char
  | _, [] => []
  | true, c :: cs => if p c then reSubRuns p true cs else c :: reSubRuns p false cs
  | false, c :: cs => if p c then '_' :: reSubRuns p true cs else c :: reSubRuns p false cs

/-- The two-substitution pipeline of _sanitize_name: strip, collapse
non-word runs to one underscore, collapse underscore runs. -/
def sanitizePipeline (l : List Char) : List Char :=
  reSubRuns (fun c => c == '_') false
    (reSubRuns (fun c => !isPyWordChar c) false (pyStrip l))

/-- core.py line 112, _sanitize_name: the ValueError on an empty result is
the InvalidName kind. -/
def _sanitize_name (name : String) : Except ErrorKind String :=
  let s := sanitizePipeline name.data
  if s = [] then .error .InvalidName else .ok ⟨s⟩

/-! ## Data model (enums, dataclasses, PuLP-facing records) -/

inductive GoalSense
  | ATTAIN
  | MINIMIZE_UNDER
  | MINIMIZE_OVER
deriving DecidableEq

inductive ConstraintSense
  | LE
  | GE
  | EQ
  | LT
  | GT
deriving DecidableEq

inductive LpCat
  | Continuous
  | Integer
  | Binary
deriving DecidableEq

/-- A PuLP decision variable: the solver-facing symbol, bounds, domain. -/
structure LpVariable where
  name : String
  lowBound : Option ℚ
  upBound : Option ℚ
  cat : LpCat
deriving DecidableEq

/-- A PuLP linear expression: a constant plus coefficient-weighted symbols,
terms kept in insertion order. -/
structure LpAffineExpression where
  terms : List (String × ℚ)
  const : ℚ
deriving DecidableEq

/-- The expression values a caller can pass where core.py expects a PuLP
expression: an affine expression, a variable, a number, or (the invalid
case the isinstance checks guard against) a plain string. -/
inductive PyExpr
  | affine (e : LpAffineExpression)
  | lpvar (v : LpVariable)
  | num (q : ℚ)
  | pystr (s : String)
deriving DecidableEq

/-- Coercion of the linear expression kinds to an affine expression, as
performed implicitly by PuLP arithmetic; none exactly on the kinds the
isinstance checks of core.py reject. -/
def toAffine : PyExpr → Option LpAffineExpression
  | .affine e => some e
  | .lpvar v => some ⟨[(v.name, 1)], 0⟩
  | .num q => some ⟨[], q⟩
  | .pystr _ => none

/-- Goal dataclass (core.py line 49). -/
structure Goal where
  name : String
  expression : PyExpr
  target : ℚ
  sense : GoalSense := .ATTAIN
  weight : ℚ := 1
  priority : ℤ := 1
deriving DecidableEq

/-- Constraint dataclass (core.py line 83). -/
structure Constraint where
  name : String
  expression : PyExpr
  sense : ConstraintSense
  rhs : ℚ
deriving DecidableEq

/-- A PuLP relational constraint: linear left side, sense, numeric right side. -/
structure LpConstraint where
  lhs : LpAffineExpression
  sense : ConstraintSense
  rhs : ℚ
deriving DecidableEq

/-- Value of a Python comparison between an expression and a number:
either a PuLP constraint object or a plain bool (what a numeric or an
equality comparison on a non-PuLP operand yields). -/
inductive PyCmpValue
  | constr (c : LpConstraint)
  | pybool (b : Bool)
deriving DecidableEq

/-- Python comparison expr OP rhs for the senses core.py builds.  An
affine expression or a variable yields a PuLP constraint; a bare number
yields a Python bool; a string compares with a float only under
equality (False), the ordered comparisons raise TypeError. -/
def pyCompare (e : PyExpr) (s : ConstraintSense) (rhs : ℚ) : Except ErrorKind PyCmpValue :=
  match e with
  | .affine a => .ok (.constr ⟨a, s, rhs⟩)
  | .lpvar v => .ok (.constr ⟨⟨[(v.name, 1)], 0⟩, s, rhs⟩)
  | .num q =>
    .ok (.pybool (match s with
      | .LE => decide (q ≤ rhs)
      | .GE => decide (rhs ≤ q)
      | .EQ => decide (q = rhs)
      | .LT => decide (q < rhs)
      | .GT => decide (rhs < q)))
  | .pystr _ =>
    match s with
    | .EQ => .ok (.pybool false)
    | _ => .error .TypeErrorComparison

/-- The PuLP problem object: named constraints in insertion order and an
optional objective. -/
structure LpProblem where
  name : String
  minimizeSense : Bool
  constraints : List (String × LpConstraint)
  objective : Option LpAffineExpression
deriving DecidableEq

/-- PuLP LpProblem.addConstraint: rejects a value that is not a
constraint object (TypeError), rejects an already used constraint name
(PulpError, the noOverlap default), otherwise appends. -/
def LpProblem.addConstraint (prob : LpProblem) (v : PyCmpValue) (cname : String) :
    Except ErrorKind LpProblem :=
  match v with
  | .pybool _ => .error .TypeErrorNotConstraint
  | .constr c =>
    if (prob.constraints.lookup cname).isSome then .error .PulpOverlap
    else .ok { prob with constraints := prob.constraints ++ [(cname, c)] }

/-! ## GLPModel state and registration operations -/

/-- GLPModel: the PuLP problem plus the four registries (core.py line 141). -/
structure GLPModel where
  name : String
  problem : LpProblem
  «variables» : List (String × LpVariable)
  goals : List (String × Goal)
  constraints : List (String × Constraint)
  dev_vars : List (String × (LpVariable × LpVariable))
deriving DecidableEq

/-- GLPModel.__init__. -/
def GLPModel.init (name : String) (minimize : Bool) : GLPModel :=
  { name := name
    problem := { name := name, minimizeSense := minimize, constraints := [], objective := none }
    «variables» := []
    goals := []
    constraints := []
    dev_vars := [] }

/-- Python str.upper over ASCII. -/
def pyUpper (s : String) : String := ⟨s.data.map Char.toUpper⟩

/-- The cat_map lookup of add_variable. -/
def catMapLookup (k : String) : Option LpCat :=
  if k = "CONTINUOUS" ∨ k = "CONT" then some .Continuous
  else if k = "INTEGER" ∨ k = "INT" then some .Integer
  else if k = "BINARY" ∨ k = "BIN" then some .Binary
  else none

/-- GLPModel.add_variable (core.py line 162): get-or-create keyed by the
raw name; on create, sanitize the name for the solver symbol, resolve
the category case-insensitively (UnknownDomain on failure), store under
the raw key. -/
def GLPModel.add_variable (m : GLPModel) (name : String)
    (low_bound up_bound : Option ℚ) (cat : String) :
    GLPModel × Except ErrorKind LpVariable :=
  match m.«variables».lookup name with
  | some v => (m, .ok v)
  | none =>
    match _sanitize_name name with
    | .error e => (m, .error e)
    | .ok safe =>
      let cat_key := pyUpper (if cat = "" then "Continuous" else cat)
      match catMapLookup cat_key with
      | none => (m, .error .UnknownDomain)
      | some pulp_cat =>
        let var : LpVariable := ⟨safe, low_bound, up_bound, pulp_cat⟩
        ({ m with «variables» := m.«variables» ++ [(name, var)] }, .ok var)

/-- GLPModel.add_constraint (core.py line 208).  The expression type
check of the source (lines 220-224) is a no-op: its body is a pass
statement, so no InvalidExpression is raised here.  The sense is
translated to a relation for LE, GE, EQ; other senses raise
UnsupportedSense.  The relation goes to the engine under the sanitized
name, the record is stored under the raw name. -/
def GLPModel.add_constraint (m : GLPModel) (c : Constraint) :
    GLPModel × Except ErrorKind Unit :=
  if (m.constraints.lookup c.name).isSome then (m, .error .DuplicateName)
  else
    match _sanitize_name c.name with
    | .error e => (m, .error e)
    | .ok safe_name =>
      let rel : Except ErrorKind PyCmpValue :=
        match c.sense with
        | .LE => pyCompare c.expression .LE c.rhs
        | .GE => pyCompare c.expression .GE c.rhs
        | .EQ => pyCompare c.expression .EQ c.rhs
        | _ => .error .UnsupportedSense
      match rel with
      | .error e => (m, .error e)
      | .ok v =>
        match m.problem.addConstraint v safe_name with
        | .error e => (m, .error e)
        | .ok prob =>
          ({ m with problem := prob, constraints := m.constraints ++ [(c.name, c)] }, .ok ())

/-- GLPModel.add_goal (core.py line 244): duplicate-name check, the
isinstance expression check (rejects exactly the non-affine kinds, as
InvalidExpression), name sanitation, key-based collision check for the
two synthesized deviation names, creation and registration of the two
non-negative deviation variables, then submission of the linking
equality to the engine and registration of the goal and its pair.
The deviation variables are written to the registry before the engine
submission, exactly as in the source (lines 281-289). -/
def GLPModel.add_goal (m : GLPModel) (g : Goal) :
    GLPModel × Except ErrorKind (LpVariable × LpVariable) :=
  if (m.goals.lookup g.name).isSome then (m, .error .DuplicateName)
  else
    match toAffine g.expression with
    | none => (m, .error .InvalidExpression)
    | some a =>
      match _sanitize_name g.name with
      | .error e => (m, .error e)
      | .ok safe =>
        let n_name := "n_" ++ safe
        let p_name := "p_" ++ safe
        if (m.«variables».lookup n_name).isSome ∨ (m.«variables».lookup p_name).isSome then
          (m, .error .NameCollision)
        else
          let n_var : LpVariable := ⟨n_name, some 0, none, .Continuous⟩
          let p_var : LpVariable := ⟨p_name, some 0, none, .Continuous⟩
          let vars2 := m.«variables» ++ [(n_name, n_var), (p_name, p_var)]
          let linking : LpConstraint :=
            ⟨⟨a.terms ++ [(n_name, 1), (p_name, -1)], a.const⟩, .EQ, g.target⟩
          match m.problem.addConstraint (.constr linking) ("goal_link_" ++ safe) with
          | .error e => ({ m with «variables» := vars2 }, .error e)
          | .ok prob =>
            ({ m with
                «variables» := vars2
                problem := prob
                goals := m.goals ++ [(g.name, g)]
                dev_vars := m.dev_vars ++ [(g.name, (n_var, p_var))] },
             .ok (n_var, p_var))

/-! ## Weighted objective assembly and solve orchestration -/

/-- The external solver engine, by its contract: a native status string
(as mapped by the pulp.LpStatus table) and a post-solve valuation of
variable symbols, none where the engine leaves a variable unassigned. -/
structure Engine where
  status : String
  value : String → Option ℚ

/-- The result record returned by solve_weighted. -/
structure SolveResult where
  status : String
  objective : Option ℚ
  «variables» : List (String × Option ℚ)
  deviations : List (String × (Option ℚ × Option ℚ))
deriving DecidableEq

/-- The per-goal weight resolution of solve_weighted (core.py lines
369-374): the override pair when goal_weights is truthy (present and
non-empty) and holds the goal name, else the goal weight on both sides. -/
def resolveGoalWeights (goal_weights : Option (List (String × ℚ × ℚ)))
    (gname : String) (g : Goal) : ℚ × ℚ :=
  match goal_weights with
  | some gw =>
    if gw ≠ [] then
      match gw.lookup gname with
      | some wp => wp
      | none => (g.weight, g.weight)
    else (g.weight, g.weight)
  | none => (g.weight, g.weight)

/-- Modelled from the spec wording of the weight rule, for comparison
with resolveGoalWeights: the pair comes from the override map when the
goal name is present in it, otherwise both components are the goal
weight. -/
def specGoalWeights (goal_weights : Option (List (String × ℚ × ℚ)))
    (gname : String) (g : Goal) : ℚ × ℚ :=
  match goal_weights with
  | some gw =>
    match gw.lookup gname with
    | some wp => wp
    | none => (g.weight, g.weight)
  | none => (g.weight, g.weight)

/-- The weighted-deviation assembly loop of solve_weighted (core.py
lines 364-376): per goal, in registration order, the negative then the
positive weighted deviation term; RuntimeError when a goal has no
registered deviation pair. -/
def buildWeightedDevs (dev_vars : List (String × (LpVariable × LpVariable)))
    (goal_weights : Option (List (String × ℚ × ℚ))) :
    List (String × Goal) → Except ErrorKind (List (ℚ × String))
  | [] => .ok []
  | (gname, g) :: rest =>
    match dev_vars.lookup gname with
    | none => .error .MissingDevVars
    | some np =>
      let wp := resolveGoalWeights goal_weights gname g
      match buildWeightedDevs dev_vars goal_weights rest with
      | .error e => .error e
      | .ok l => .ok ((wp.1, np.1.name) :: (wp.2, np.2.name) :: l)

/-- Scalar multiple of an affine expression (PuLP left scalar product). -/
def LpAffineExpression.smul (q : ℚ) (e : LpAffineExpression) : LpAffineExpression :=
  ⟨e.terms.map (fun t => (t.1, q * t.2)), q * e.const⟩

/-- pulp.lpSum over a list of affine expressions: terms concatenate in
order, constants add. -/
def lpSumAffine (l : List LpAffineExpression) : LpAffineExpression :=
  ⟨(l.map LpAffineExpression.terms).flatten, (l.map LpAffineExpression.const).sum⟩

/-- The single affine expression pulp.lpSum builds from the weighted
deviation terms: each pair (w, symbol) is one term with coefficient w. -/
def devsToAffine (wd : List (ℚ × String)) : LpAffineExpression :=
  ⟨wd.map (fun t => (t.2, t.1)), 0⟩

/-- The obj_terms list of solve_weighted (core.py lines 378-384): the
cost term only when a cost expression is given and the cost weight is
non-zero, then the summed deviation term when any deviation terms exist. -/
def assembleObjTerms (cost_expr : Option LpAffineExpression) (cost_weight : ℚ)
    (wd : List (ℚ × String)) : List LpAffineExpression :=
  (match cost_expr with
   | some ce => if cost_weight ≠ 0 then [LpAffineExpression.smul cost_weight ce] else []
   | none => []) ++
  (if wd ≠ [] then [devsToAffine wd] else [])

/-- Total evaluation of an affine expression under a total valuation. -/
def LpAffineExpression.evalWith (v : String → ℚ) (e : LpAffineExpression) : ℚ :=
  e.const + (e.terms.map (fun t => t.2 * v t.1)).sum

/-- pulp.value of an affine expression under a partial post-solve
valuation: none as soon as some mentioned variable is unassigned (the
TypeError path the source catches and maps to None). -/
def LpAffineExpression.valueWith (v : String → Option ℚ) (e : LpAffineExpression) :
    Option ℚ :=
  (e.terms.mapM (fun t => (v t.1).map (fun x => t.2 * x))).map (fun l => e.const + l.sum)

/-- The sum of the coefficients an affine expression carries for one symbol. -/
def coeffOf (e : LpAffineExpression) (sym : String) : ℚ :=
  ((e.terms.filter (fun t => t.1 = sym)).map (fun t => t.2)).sum

/-- GLPModel.solve_weighted (core.py line 324).  The
keep_existing_objective argument is accepted and, as in the source
(where its only use is a branch whose body is a pass statement), never
read.  The assembled objective always overwrites the problem objective;
the engine is then invoked and the result record extracted: engine
status, objective value only under an optimal status, per-variable
values keyed by registration name and read through the variable symbol,
and per-goal deviation pair values. -/
def GLPModel.solve_weighted (m : GLPModel)
    (goal_weights : Option (List (String × ℚ × ℚ)))
    (cost_expr : Option LpAffineExpression)
    (cost_weight : ℚ)
    (keep_existing_objective : Bool)
    (engine : Engine) :
    GLPModel × Except ErrorKind SolveResult :=
  match buildWeightedDevs m.dev_vars goal_weights m.goals with
  | .error e => (m, .error e)
  | .ok weighted_devs =>
    let obj_terms := assembleObjTerms cost_expr cost_weight weighted_devs
    if obj_terms = [] then (m, .error .EmptyObjective)
    else
      let objective := lpSumAffine obj_terms
      let m2 := { m with problem := { m.problem with objective := some objective } }
      let status := engine.status
      let obj_value : Option ℚ :=
        if status = "Optimal" ∨ status = "Optimal Solution Found" then
          objective.valueWith engine.value
        else none
      let var_values := m.«variables».map (fun kv => (kv.1, engine.value kv.2.name))
      let dev_values := m.goals.filterMap (fun kv =>
        (m.dev_vars.lookup kv.1).map (fun np =>
          (kv.1, (engine.value np.1.name, engine.value np.2.name))))
      (m2, .ok ⟨status, obj_value, var_values, dev_values⟩)

/-- Every registered goal has a registered deviation pair; established by
add_goal and assumed by the solve orchestration. -/
def GLPModel.goalsHaveDevs (m : GLPModel) : Bool :=
  m.goals.all (fun kv => (m.dev_vars.lookup kv.1).isSome)

/-- A character list contains two adjacent underscores. -/
def hasDoubleUS : List Char → Bool
  | [] => false
  | [_] => false
  | a :: b :: rest => (a == '_' && b == '_') || hasDoubleUS (b :: rest)

/-- A token is made of word characters only. -/
def isValidToken (s : String) : Bool := s.data.all isPyWordChar

/-- The solve contract of the orchestrator: EmptyObjective exactly when
no goal terms and no effective cost term remain, and otherwise, for any
engine outcome, a returned record carrying the engine status, one value
slot per registered variable read through its solver symbol, one
deviation pair per registered goal, and no objective value under a
non-optimal status. -/
def solveContract (m : GLPModel) (gw : Option (List (String × ℚ × ℚ)))
    (ce : Option LpAffineExpression) (cw : ℚ) (keep : Bool) (eng : Engine) : Prop :=
  ((m.solve_weighted gw ce cw keep eng).2 = .error .EmptyObjective
     ↔ (m.goals = [] ∧ (ce = none ∨ cw = 0))) ∧
  ((m.goals ≠ [] ∨ (ce ≠ none ∧ cw ≠ 0)) →
    ∃ res, (m.solve_weighted gw ce cw keep eng).2 = .ok res ∧
      res.status = eng.status ∧
      res.«variables» = m.«variables».map (fun kv => (kv.1, eng.value kv.2.name)) ∧
      res.deviations.map Prod.fst = m.goals.map Prod.fst ∧
      (∀ kv ∈ m.goals, ∀ n p, m.dev_vars.lookup kv.1 = some (n, p) →
        (kv.1, (eng.value n.name, eng.value p.name)) ∈ res.deviations) ∧
      (¬(eng.status = "Optimal" ∨ eng.status = "Optimal Solution Found") →
        res.objective = none))

/-! ## Concrete instances used by witnesses and counterexamples -/

/-- An engine reporting infeasibility and assigning no variable. -/
def exEngineInfeasible : Engine := ⟨"Infeasible", fun _ => none⟩

/-- An engine reporting optimality and assigning zero everywhere. -/
def exEngineOptimal : Engine := ⟨"Optimal", fun _ => some 0⟩

/-- A goal with sense MINIMIZE_UNDER and weight one. -/
def exGoalMU : Goal := ⟨"g", .num 0, 10, .MINIMIZE_UNDER, 1, 1⟩

/-- A one-goal model: the MINIMIZE_UNDER goal registered on a fresh model. -/
def exModelMU : GLPModel := ((GLPModel.init "m" true).add_goal exGoalMU).1

/-- A model holding a variable registered under the raw key containing a
dot; its solver symbol sanitizes to the n-deviation symbol of goal g. -/
def exModelDotVar : GLPModel :=
  ((GLPModel.init "m" true).add_variable "n.g" (some 0) none "Continuous").1

/-- A goal named g with sense ATTAIN. -/
def exGoalAttain : Goal := ⟨"g", .num 0, 10, .ATTAIN, 1, 1⟩

/-- The model after registering the ATTAIN goal g on a fresh model. -/
def exModelG : GLPModel := ((GLPModel.init "m" true).add_goal exGoalAttain).1

/-- A model holding a variable registered under the raw key n_g itself. -/
def exModelKeyVar : GLPModel :=
  ((GLPModel.init "m" true).add_variable "n_g" (some 0) none "Continuous").1

/-- A model with one decision variable x. -/
def exModelX : GLPModel :=
  ((GLPModel.init "m" true).add_variable "x" (some 0) none "Continuous").1

/-- The variable record created for x in exModelX. -/
def exVarX : LpVariable := ⟨"x", some 0, none, .Continuous⟩

/-- A constraint whose expression is a plain string, not a linear
combination. -/
def exBadConstraint : Constraint := ⟨"c1", .pystr "not linear", .EQ, 100⟩

/-! ## Helper lemmas -/

theorem addConstraint_constr_error (prob : LpProblem) (c : LpConstraint)
    (cname : String) (e : ErrorKind)
    (h : prob.addConstraint (.constr c) cname = .error e) : e = .PulpOverlap := by
  unfold LpProblem.addConstraint at h
  dsimp only at h
  split at h
  · injection h with h3; exact h3.symm
  · exact Except.noConfusion h

theorem mem_reSubRuns (p : Char → Bool) (b : Bool) (l : List Char) (c : Char)
    (h : c ∈ reSubRuns p b l) : c = '_' ∨ (c ∈ l ∧ p c = false) := by
  induction l generalizing b with
  | nil => cases b <;> simp [reSubRuns] at h
  | cons d ds ih =>
    cases b with
    | true =>
      unfold reSubRuns at h
      split at h
      · rcases ih true h with h1 | ⟨h2, h3⟩
        · exact Or.inl h1
        · exact Or.inr ⟨List.mem_cons_of_mem _ h2, h3⟩
      · rename_i hpd
        rcases List.mem_cons.mp h with h1 | h1
        · subst h1
          exact Or.inr ⟨List.mem_cons_self _ _, by rwa [Bool.not_eq_true] at hpd⟩
        · rcases ih false h1 with h2 | ⟨h2, h3⟩
          · exact Or.inl h2
          · exact Or.inr ⟨List.mem_cons_of_mem _ h2, h3⟩
    | false =>
      unfold reSubRuns at h
      split at h
      · rcases List.mem_cons.mp h with h1 | h1
        · exact Or.inl h1
        · rcases ih true h1 with h2 | ⟨h2, h3⟩
          · exact Or.inl h2
          · exact Or.inr ⟨List.mem_cons_of_mem _ h2, h3⟩
      · rename_i hpd
        rcases List.mem_cons.mp h with h1 | h1
        · subst h1
          exact Or.inr ⟨List.mem_cons_self _ _, by rwa [Bool.not_eq_true] at hpd⟩
        · rcases ih false h1 with h2 | ⟨h2, h3⟩
          · exact Or.inl h2
          · exact Or.inr ⟨List.mem_cons_of_mem _ h2, h3⟩

theorem word_of_mem_pipeline (l : List Char) (c : Char) (h : c ∈ sanitizePipeline l) :
    isPyWordChar c = true := by
  unfold sanitizePipeline at h
  rcases mem_reSubRuns _ _ _ _ h with h1 | ⟨h2, _⟩
  · subst h1; decide
  · rcases mem_reSubRuns _ _ _ _ h2 with h3 | ⟨_, h4⟩
    · subst h3; decide
    · simpa using h4

theorem reSubRuns_true_head (p : Char → Bool) (l : List Char) (c : Char) (cs : List Char)
    (h : reSubRuns p true l = c :: cs) : p c = false := by
  induction l with
  | nil => simp [reSubRuns] at h
  | cons d ds ih =>
    unfold reSubRuns at h
    split at h
    · exact ih h
    · rename_i hpd
      injection h with h1 _
      subst h1
      rwa [Bool.not_eq_true] at hpd

theorem hasDoubleUS_tail (c : Char) (cs : List Char)
    (h : hasDoubleUS (c :: cs) = false) : hasDoubleUS cs = false := by
  cases cs with
  | nil => rfl
  | cons d ds =>
    unfold hasDoubleUS at h
    exact (Bool.or_eq_false_iff.mp h).2

theorem hasDoubleUS_reSubRuns (l : List Char) :
    hasDoubleUS (reSubRuns (fun c => c == '_') false l) = false ∧
    hasDoubleUS (reSubRuns (fun c => c == '_') true l) = false := by
  induction l with
  | nil => exact ⟨rfl, rfl⟩
  | cons d ds ih =>
    have hconsF : (d == '_') = false →
        hasDoubleUS (d :: reSubRuns (fun c => c == '_') false ds) = false := by
      intro hd
      rcases hR : reSubRuns (fun c => c == '_') false ds with _ | ⟨e, es⟩
      · rfl
      · have h2 : hasDoubleUS (e :: es) = false := by rw [← hR]; exact ih.1
        show (((d == '_') && (e == '_')) || hasDoubleUS (e :: es)) = false
        rw [hd, Bool.false_and, Bool.false_or]
        exact h2
    have hconsU : hasDoubleUS ('_' :: reSubRuns (fun c => c == '_') true ds) = false := by
      rcases hR : reSubRuns (fun c => c == '_') true ds with _ | ⟨e, es⟩
      · rfl
      · have h2 : hasDoubleUS (e :: es) = false := by rw [← hR]; exact ih.2
        have he : (e == '_') = false := by
          simpa using reSubRuns_true_head (fun c => c == '_') ds e es hR
        show ((('_' == '_') && (e == '_')) || hasDoubleUS (e :: es)) = false
        rw [he, Bool.and_false, Bool.false_or]
        exact h2
    constructor
    · unfold reSubRuns
      split
      · exact hconsU
      · rename_i hd
        exact hconsF (by rwa [Bool.not_eq_true] at hd)
    · unfold reSubRuns
      split
      · exact ih.2
      · rename_i hd
        exact hconsF (by rwa [Bool.not_eq_true] at hd)

theorem word_not_space (c : Char) (h : isPySpace c = true) : isPyWordChar c = false := by
  simp only [isPySpace, Bool.or_eq_true, beq_iff_eq] at h
  rcases h with ((((rfl | rfl) | rfl) | rfl) | rfl) | rfl <;> decide

theorem dropWhile_eq_self_of_all (p : Char → Bool) (l : List Char)
    (h : ∀ c ∈ l, p c = false) : l.dropWhile p = l := by
  cases l with
  | nil => rfl
  | cons c cs => simp [List.dropWhile, h c (List.mem_cons_self c cs)]

theorem pyStrip_eq_self (l : List Char) (h : ∀ c ∈ l, isPySpace c = false) :
    pyStrip l = l := by
  unfold pyStrip
  rw [dropWhile_eq_self_of_all _ _ h]
  rw [dropWhile_eq_self_of_all _ _ (fun c hc => h c (List.mem_reverse.mp hc))]
  exact List.reverse_reverse l

theorem reSubRuns_eq_self_of_none (p : Char → Bool) (b : Bool) (l : List Char)
    (h : ∀ c ∈ l, p c = false) : reSubRuns p b l = l := by
  induction l generalizing b with
  | nil => cases b <;> rfl
  | cons d ds ih =>
    have hd := h d (List.mem_cons_self d ds)
    have hds : ∀ c ∈ ds, p c = false := fun c hc => h c (List.mem_cons_of_mem _ hc)
    cases b <;> simp [reSubRuns, hd, ih false hds]

theorem reSubRuns_us_fix (l : List Char) :
    hasDoubleUS l = false →
    (reSubRuns (fun c => c == '_') false l = l ∧
      ((∀ es, l ≠ '_' :: es) → reSubRuns (fun c => c == '_') true l = l)) := by
  induction l with
  | nil => exact fun _ => ⟨rfl, fun _ => rfl⟩
  | cons d ds ih =>
    intro h
    have hds := hasDoubleUS_tail _ _ h
    have consF : (d == '_') = false →
        d :: reSubRuns (fun c => c == '_') false ds = d :: ds := by
      intro hd
      rw [(ih hds).1]
    constructor
    · unfold reSubRuns
      split
      · rename_i hd
        have hd' : d = '_' := by simpa using hd
        subst hd'
        have hhead : ∀ es, ds ≠ '_' :: es := by
          intro es heq
          rw [heq] at h
          have h1 := (Bool.or_eq_false_iff.mp h).1
          simp at h1
        rw [(ih hds).2 hhead]
      · rename_i hd
        exact consF (by rwa [Bool.not_eq_true] at hd)
    · intro hhead
      unfold reSubRuns
      split
      · rename_i hd
        have hd' : d = '_' := by simpa using hd
        exact absurd (by rw [hd'] : d :: ds = '_' :: ds) (hhead ds)
      · rename_i hd
        exact consF (by rwa [Bool.not_eq_true] at hd)

theorem sanitizePipeline_fix (l : List Char) :
    sanitizePipeline (sanitizePipeline l) = sanitizePipeline l := by
  have hword : ∀ c ∈ sanitizePipeline l, isPyWordChar c = true := word_of_mem_pipeline l
  have hdd : hasDoubleUS (sanitizePipeline l) = false := (hasDoubleUS_reSubRuns _).1
  have hnospace : ∀ c ∈ sanitizePipeline l, isPySpace c = false := by
    intro c hc
    cases hsp : isPySpace c with
    | false => rfl
    | true =>
      have h1 := word_not_space c hsp
      rw [hword c hc] at h1
      exact Bool.noConfusion h1
  conv_lhs => rw [sanitizePipeline]
  rw [pyStrip_eq_self _ hnospace]
  rw [reSubRuns_eq_self_of_none (fun c => !isPyWordChar c) false (sanitizePipeline l)
    (fun c hc => by simp [hword c hc])]
  exact (reSubRuns_us_fix _ hdd).1

theorem addConstraint_constr_ok (prob : LpProblem) (c : LpConstraint)
    (cname : String) (prob2 : LpProblem)
    (h : prob.addConstraint (.constr c) cname = .ok prob2) :
    prob2 = { prob with constraints := prob.constraints ++ [(cname, c)] } := by
  unfold LpProblem.addConstraint at h
  dsimp only at h
  split at h
  · exact Except.noConfusion h
  · injection h with h1; exact h1.symm

theorem resolveGoalWeights_eq_spec (gw : Option (List (String × ℚ × ℚ)))
    (gname : String) (g : Goal) :
    resolveGoalWeights gw gname g = specGoalWeights gw gname g := by
  unfold resolveGoalWeights specGoalWeights
  cases gw with
  | none => rfl
  | some l =>
    cases l with
    | nil => simp
    | cons a as => simp

theorem buildWeightedDevs_ok (dv : List (String × (LpVariable × LpVariable)))
    (gw : Option (List (String × ℚ × ℚ))) (goals : List (String × Goal))
    (wd : List (ℚ × String)) (h : buildWeightedDevs dv gw goals = .ok wd)
    (v : String → ℚ) :
    (wd.map (fun t => t.1 * v t.2)).sum =
      (goals.map (fun kv =>
        match dv.lookup kv.1 with
        | some np => (specGoalWeights gw kv.1 kv.2).1 * v np.1.name +
            (specGoalWeights gw kv.1 kv.2).2 * v np.2.name
        | none => 0)).sum := by
  induction goals generalizing wd with
  | nil =>
    unfold buildWeightedDevs at h
    injection h with h1
    subst h1
    rfl
  | cons kv rest ih =>
    obtain ⟨gname, g⟩ := kv
    unfold buildWeightedDevs at h
    split at h
    · exact Except.noConfusion h
    · rename_i np hnp
      split at h
      · exact Except.noConfusion h
      · rename_i wr hwr
        injection h with h1
        subst h1
        simp only [List.map_cons, List.sum_cons, hnp]
        rw [ih wr hwr, resolveGoalWeights_eq_spec]
        ring

theorem buildWeightedDevs_total (dv : List (String × (LpVariable × LpVariable)))
    (gw : Option (List (String × ℚ × ℚ))) (goals : List (String × Goal))
    (h : ∀ kv ∈ goals, (dv.lookup kv.1).isSome = true) :
    ∃ wd, buildWeightedDevs dv gw goals = .ok wd ∧ (wd = [] ↔ goals = []) := by
  induction goals with
  | nil => exact ⟨[], rfl, by simp⟩
  | cons kv rest ih =>
    obtain ⟨gname, g⟩ := kv
    obtain ⟨np, hnp⟩ := Option.isSome_iff_exists.mp (h _ (List.mem_cons_self _ _))
    obtain ⟨wr, hwr, _⟩ := ih (fun x hx => h x (List.mem_cons_of_mem _ hx))
    refine ⟨((resolveGoalWeights gw gname g).1, np.1.name) ::
      ((resolveGoalWeights gw gname g).2, np.2.name) :: wr, ?_, by simp⟩
    unfold buildWeightedDevs
    rw [hnp]
    dsimp only
    rw [hwr]

theorem evalWith_append (v : String → ℚ) (t1 t2 : List (String × ℚ)) (c1 c2 : ℚ) :
    LpAffineExpression.evalWith v ⟨t1 ++ t2, c1 + c2⟩ =
    LpAffineExpression.evalWith v ⟨t1, c1⟩ + LpAffineExpression.evalWith v ⟨t2, c2⟩ := by
  unfold LpAffineExpression.evalWith
  simp [List.map_append, List.sum_append]
  ring

theorem evalWith_lpSumAffine (v : String → ℚ) (l : List LpAffineExpression) :
    (lpSumAffine l).evalWith v = (l.map (fun e => e.evalWith v)).sum := by
  induction l with
  | nil => simp [lpSumAffine, LpAffineExpression.evalWith]
  | cons e es ih =>
    have hcons : lpSumAffine (e :: es) =
        ⟨e.terms ++ (lpSumAffine es).terms, e.const + (lpSumAffine es).const⟩ := by
      simp [lpSumAffine]
    rw [hcons, evalWith_append]
    simp only [List.map_cons, List.sum_cons]
    rw [← ih]

theorem sum_map_mul {α : Type} (q : ℚ) (f : α → ℚ) (l : List α) :
    (l.map (fun x => q * f x)).sum = q * (l.map f).sum := by
  induction l with
  | nil => simp
  | cons x xs ih => simp [ih, mul_add]

theorem evalWith_smul (v : String → ℚ) (q : ℚ) (e : LpAffineExpression) :
    (LpAffineExpression.smul q e).evalWith v = q * e.evalWith v := by
  unfold LpAffineExpression.smul LpAffineExpression.evalWith
  rw [List.map_map]
  have hfun : ((fun t : String × ℚ => t.2 * v t.1) ∘ fun t : String × ℚ => (t.1, q * t.2)) =
      fun t : String × ℚ => q * (t.2 * v t.1) := by
    funext t
    simp [mul_assoc]
  rw [hfun, sum_map_mul q (fun t => t.2 * v t.1) e.terms, mul_add]

theorem evalWith_devsToAffine (v : String → ℚ) (wd : List (ℚ × String)) :
    (devsToAffine wd).evalWith v = (wd.map (fun t => t.1 * v t.2)).sum := by
  unfold devsToAffine LpAffineExpression.evalWith
  rw [List.map_map]
  have hfun : ((fun t : String × ℚ => t.2 * v t.1) ∘ fun t : ℚ × String => (t.2, t.1)) =
      fun t : ℚ × String => t.1 * v t.2 := by
    funext t
    rfl
  rw [hfun]
  simp

theorem assembleObjTerms_eq_nil (ce : Option LpAffineExpression) (cw : ℚ)
    (wd : List (ℚ × String)) :
    assembleObjTerms ce cw wd = [] ↔ ((ce = none ∨ cw = 0) ∧ wd = []) := by
  unfold assembleObjTerms
  cases ce with
  | none => by_cases hw : wd = [] <;> simp [hw]
  | some cexpr => by_cases hcw : cw = 0 <;> by_cases hw : wd = [] <;> simp [hcw, hw]

theorem dev_extraction (goals : List (String × Goal))
    (dv : List (String × (LpVariable × LpVariable))) (eng : Engine)
    (hall : ∀ kv ∈ goals, (dv.lookup kv.1).isSome = true) :
    (goals.filterMap (fun kv => (dv.lookup kv.1).map (fun np =>
      (kv.1, (eng.value np.1.name, eng.value np.2.name))))).map Prod.fst =
        goals.map Prod.fst ∧
    (∀ kv ∈ goals, ∀ n p, dv.lookup kv.1 = some (n, p) →
      (kv.1, (eng.value n.name, eng.value p.name)) ∈
        goals.filterMap (fun kv => (dv.lookup kv.1).map (fun np =>
          (kv.1, (eng.value np.1.name, eng.value np.2.name))))) := by
  induction goals with
  | nil =>
    refine ⟨rfl, ?_⟩
    intro kv h
    exact absurd h (List.not_mem_nil kv)
  | cons kv0 rest ih =>
    obtain ⟨np0, hnp0⟩ := Option.isSome_iff_exists.mp (hall kv0 (List.mem_cons_self _ _))
    obtain ⟨ih1, ih2⟩ := ih (fun x hx => hall x (List.mem_cons_of_mem _ hx))
    have hstep : List.filterMap (fun kv => (dv.lookup kv.1).map (fun np =>
        (kv.1, (eng.value np.1.name, eng.value np.2.name)))) (kv0 :: rest) =
        (kv0.1, (eng.value np0.1.name, eng.value np0.2.name)) ::
        List.filterMap (fun kv => (dv.lookup kv.1).map (fun np =>
          (kv.1, (eng.value np.1.name, eng.value np.2.name)))) rest := by
      rw [List.filterMap_cons_some]
      simp [hnp0]
    constructor
    · rw [hstep]
      simp [ih1]
    · intro kv hkv n p hnp
      rcases List.mem_cons.mp hkv with rfl | hkv2
      · rw [hnp0] at hnp
        injection hnp with h1
        subst h1
        rw [hstep]
        exact List.mem_cons_self _ _
      · rw [hstep]
        exact List.mem_cons_of_mem _ (ih2 kv hkv2 n p hnp)

/-! ## Claim theorems -/

/-- C10: the keep_existing_objective flag of solve_weighted has no
effect: with all other arguments identical, the runs with the flag true
and false perform the same state change and return the same result; the
assembled objective always replaces a previously set objective. -/
theorem keep_existing_objective_inert (m : GLPModel)
    (gw : Option (List (String × ℚ × ℚ))) (ce : Option LpAffineExpression)
    (cw : ℚ) (eng : Engine) :
    m.solve_weighted gw ce cw true eng = m.solve_weighted gw ce cw false eng := rfl

/-- C9: add_variable is idempotent by name: when the name is already
registered, the call returns the registered variable record and the
whole model unchanged, whatever bounds and domain arguments are passed. -/
theorem add_variable_idempotent_by_name (m : GLPModel) (name : String) (v : LpVariable)
    (lb ub : Option ℚ) (cat : String) (h : m.«variables».lookup name = some v) :
    m.add_variable name lb ub cat = (m, .ok v) := by
  unfold GLPModel.add_variable
  rw [h]

/-- C9 witness: a second registration of x with different bounds and an
unrecognized domain still returns the stored record and leaves the model
unchanged. -/
theorem add_variable_idempotent_by_name_witness :
    exModelX.add_variable "x" (some 5) (some 9) "Bogus" = (exModelX, .ok exVarX) :=
  add_variable_idempotent_by_name exModelX "x" exVarX (some 5) (some 9) "Bogus" (by decide)

/-- C3: the expression-type check of add_constraint (core.py lines
219-224) is a disabled no-op, contradicting the docstring of the method:
a constraint whose expression is a plain string is not rejected with
InvalidExpression; under the equality sense the failure only surfaces as
the engine-level TypeError, after which the constraint is indeed not
registered (the model is unchanged). -/
theorem invalid_expression_not_raised_at_check :
    (GLPModel.init "m" true).add_constraint exBadConstraint =
      ((GLPModel.init "m" true), .error .TypeErrorNotConstraint) ∧
    ErrorKind.TypeErrorNotConstraint ≠ ErrorKind.InvalidExpression := by
  exact ⟨by decide, by decide⟩

/-- C1 counterexample: a registered goal with sense MINIMIZE_UNDER and
weight one, with no override map, still gets coefficient one on its
positive deviation in the objective assembled by solve_weighted; the
claimed zero positive-deviation weight for MINIMIZE_UNDER does not hold. -/
theorem minimize_under_penalizes_p_dev :
    (exModelMU.goals.lookup "g").map Goal.sense = some .MINIMIZE_UNDER ∧
    ((exModelMU.solve_weighted none none 0 false exEngineInfeasible).1.problem.objective).map
      (fun o => coeffOf o "p_g") = some 1 ∧
    ((exModelMU.solve_weighted none none 0 false exEngineInfeasible).1.problem.objective).map
      (fun o => coeffOf o "p_g") ≠ some 0 := by
  have hm : exModelMU =
      ⟨"m", ⟨"m", true, [("goal_link_g", ⟨⟨[("n_g", 1), ("p_g", -1)], 0⟩, .EQ, 10⟩)], none⟩,
        [("n_g", ⟨"n_g", some 0, none, .Continuous⟩), ("p_g", ⟨"p_g", some 0, none, .Continuous⟩)],
        [("g", exGoalMU)], [],
        [("g", (⟨"n_g", some 0, none, .Continuous⟩, ⟨"p_g", some 0, none, .Continuous⟩))]⟩ := by
    decide
  refine ⟨by decide, ?_, ?_⟩ <;>
  · rw [hm]
    simp [GLPModel.solve_weighted, buildWeightedDevs, resolveGoalWeights, assembleObjTerms,
      lpSumAffine, devsToAffine, coeffOf, exGoalMU, exEngineInfeasible, List.lookup]

/-- C1 as amended: the weight resolution used by the objective assembler
never depends on the goal sense: for a goal whose name is not in the
override map, both deviation weights equal the goal weight attribute,
for every sense. -/
theorem resolved_weights_ignore_sense (gw : Option (List (String × ℚ × ℚ)))
    (gname : String) (g : Goal)
    (h : ∀ l, gw = some l → l.lookup gname = none) :
    ∀ s : GoalSense, resolveGoalWeights gw gname { g with sense := s } = (g.weight, g.weight) := by
  intro s
  unfold resolveGoalWeights
  cases gw with
  | none => rfl
  | some l =>
    cases l with
    | nil => rfl
    | cons a as =>
      have hx := h (a :: as) rfl
      simp [hx]

/-- C1 witness: with an override map naming only another goal, the
MINIMIZE_UNDER goal resolves to its weight on both sides. -/
theorem resolved_weights_ignore_sense_witness :
    resolveGoalWeights (some [("other", 2, 3)]) "g"
      { exGoalMU with sense := .MINIMIZE_UNDER } = (exGoalMU.weight, exGoalMU.weight) :=
  resolved_weights_ignore_sense (some [("other", 2, 3)]) "g" exGoalMU
    (by intro l hl; injection hl with h2; subst h2; decide) .MINIMIZE_UNDER

/-- C7 counterexample: in exModelDotVar the variable registered under the
raw key n dot g carries the solver symbol n_g; registering goal g then
succeeds instead of failing with NameCollision, and creates a second
variable with the same solver symbol n_g. -/
theorem dev_symbol_collision_slips_through :
    ((exModelDotVar.«variables».lookup "n.g").map (fun v => v.name) = some "n_g") ∧
    (exModelDotVar.add_goal exGoalAttain).2 =
      .ok (⟨"n_g", some 0, none, .Continuous⟩, ⟨"p_g", some 0, none, .Continuous⟩) := by
  refine ⟨by decide, by decide⟩

/-- C2: whenever add_variable, add_constraint or add_goal raises one of
the five structural error kinds (DuplicateName, UnknownDomain,
UnsupportedSense, InvalidExpression, NameCollision), the whole model
state, registries and underlying problem included, is exactly the state
before the call; in particular re-registering an existing goal or
constraint name raises and changes nothing. -/
theorem structural_errors_leave_model_unchanged (m : GLPModel) :
    (∀ name lb ub cat m2 e, m.add_variable name lb ub cat = (m2, .error e) →
        isStructuralKind e = true → m2 = m) ∧
    (∀ c m2 e, m.add_constraint c = (m2, .error e) →
        isStructuralKind e = true → m2 = m) ∧
    (∀ g m2 e, m.add_goal g = (m2, .error e) →
        isStructuralKind e = true → m2 = m) := by
  refine ⟨?_, ?_, ?_⟩
  · intro name lb ub cat m2 e h _
    unfold GLPModel.add_variable at h
    dsimp only at h
    repeat'
      first
      | (injection h with h1 h2; exact Except.noConfusion h2)
      | (injection h with h1 h2; exact h1.symm)
      | split at h
  · intro c m2 e h _
    unfold GLPModel.add_constraint at h
    dsimp only at h
    repeat'
      first
      | (injection h with h1 h2; exact Except.noConfusion h2)
      | (injection h with h1 h2; exact h1.symm)
      | split at h
  · intro g m2 e h hs
    unfold GLPModel.add_goal at h
    dsimp only at h
    split at h
    · injection h with h1 _; exact h1.symm
    · split at h
      · injection h with h1 _; exact h1.symm
      · split at h
        · injection h with h1 _; exact h1.symm
        · split at h
          · injection h with h1 _; exact h1.symm
          · split at h
            · rename_i e2 heq
              injection h with h1 h2
              injection h2 with h3
              have he2 : e2 = .PulpOverlap := addConstraint_constr_error _ _ _ _ heq
              subst h3
              rw [he2] at hs
              simp [isStructuralKind] at hs
            · injection h with h1 h2; exact Except.noConfusion h2

/-- C2 witness: re-registering the goal name g on exModelMU raises
DuplicateName and the model is unchanged. -/
theorem structural_errors_leave_model_unchanged_witness :
    (exModelMU.add_goal exGoalAttain).1 = exModelMU :=
  (structural_errors_leave_model_unchanged exModelMU).2.2 exGoalAttain
    (exModelMU.add_goal exGoalAttain).1 .DuplicateName (by decide) (by decide)

/-- C7 as amended: the deviation-name collision check of add_goal
compares the synthesized names against the keys of the variables
registry (the raw registration names), not against the solver-facing
symbols: add_goal raises NameCollision exactly when one of the two
synthesized names is an existing registry key, and on success the two
names are fresh keys; a solver-symbol collision can still occur when an
existing variable was registered under a raw key that sanitizes to one
of the synthesized names. -/
theorem add_goal_collision_check_is_key_based (m : GLPModel) (g : Goal) :
    (∀ n p, (m.add_goal g).2 = .ok (n, p) →
      m.«variables».lookup n.name = none ∧ m.«variables».lookup p.name = none) ∧
    (∀ safe, m.goals.lookup g.name = none → (toAffine g.expression).isSome = true →
      _sanitize_name g.name = .ok safe →
      ((m.«variables».lookup ("n_" ++ safe)).isSome ∨
        (m.«variables».lookup ("p_" ++ safe)).isSome) →
      m.add_goal g = (m, .error .NameCollision)) := by
  constructor
  · intro n p h
    unfold GLPModel.add_goal at h
    dsimp only at h
    split at h
    · exact Except.noConfusion h
    · split at h
      · exact Except.noConfusion h
      · split at h
        · exact Except.noConfusion h
        · split at h
          · exact Except.noConfusion h
          · rename_i hcol
            split at h
            · exact Except.noConfusion h
            · injection h with h1
              injection h1 with hn hp
              subst hn; subst hp
              dsimp only
              rw [not_or] at hcol
              obtain ⟨hc1, hc2⟩ := hcol
              rw [Bool.not_eq_true] at hc1 hc2
              constructor
              · exact Option.not_isSome_iff_eq_none.mp (by simp [hc1])
              · exact Option.not_isSome_iff_eq_none.mp (by simp [hc2])
  · intro safe h1 h2 h3 h4
    obtain ⟨a, ha⟩ := Option.isSome_iff_exists.mp h2
    unfold GLPModel.add_goal
    rw [h1, ha, h3]
    dsimp only
    rw [if_pos h4]
    simp

/-- C7 amended witness: with a variable registered under the raw key
n_g itself, add_goal for goal g raises NameCollision and changes
nothing. -/
theorem add_goal_collision_check_is_key_based_witness :
    exModelKeyVar.add_goal exGoalAttain = (exModelKeyVar, .error .NameCollision) :=
  (add_goal_collision_check_is_key_based exModelKeyVar exGoalAttain).2 "g"
    (by decide) (by decide) (by decide) (Or.inl (by decide))

/-- C6: every successful add_goal call creates exactly the two new
non-negative continuous deviation variables named n_ and p_ followed by
the sanitized goal name, and submits exactly one linking equality, with
left side expression plus n minus p and right side the target, to the
named constraint store of the underlying problem under the key
goal_link_ followed by the sanitized name (the solver-facing store the
Constraint Registry submits to; the user-facing mapping of Constraint
records is untouched).  The outcome is the same for every goal sense. -/
theorem add_goal_synthesis (m : GLPModel) (g : Goal) (m2 : GLPModel) (n p : LpVariable)
    (h : m.add_goal g = (m2, .ok (n, p))) :
    ∃ safe a, _sanitize_name g.name = .ok safe ∧ toAffine g.expression = some a ∧
      n = ⟨"n_" ++ safe, some 0, none, .Continuous⟩ ∧
      p = ⟨"p_" ++ safe, some 0, none, .Continuous⟩ ∧
      m2.«variables» = m.«variables» ++ [("n_" ++ safe, n), ("p_" ++ safe, p)] ∧
      m2.problem.constraints = m.problem.constraints ++
        [("goal_link_" ++ safe,
          ⟨⟨a.terms ++ [("n_" ++ safe, 1), ("p_" ++ safe, -1)], a.const⟩, .EQ, g.target⟩)] ∧
      m2.goals = m.goals ++ [(g.name, g)] ∧
      m2.dev_vars = m.dev_vars ++ [(g.name, (n, p))] ∧
      m2.constraints = m.constraints ∧
      (∀ s : GoalSense, m.add_goal { g with sense := s } =
        ({ m2 with goals := m.goals ++ [(g.name, { g with sense := s })] }, .ok (n, p))) := by
  unfold GLPModel.add_goal at h
  dsimp only at h
  split at h
  · exact Prod.noConfusion h (fun _ hb => Except.noConfusion hb)
  · rename_i hdup
    split at h
    · exact Prod.noConfusion h (fun _ hb => Except.noConfusion hb)
    · rename_i a ha
      split at h
      · exact Prod.noConfusion h (fun _ hb => Except.noConfusion hb)
      · rename_i safe hsan
        split at h
        · exact Prod.noConfusion h (fun _ hb => Except.noConfusion hb)
        · rename_i hcol
          split at h
          · exact Prod.noConfusion h (fun _ hb => Except.noConfusion hb)
          · rename_i prob2 hprob
            injection h with h1 h2
            injection h2 with h3
            injection h3 with hn hp
            have hp2 := addConstraint_constr_ok _ _ _ _ hprob
            subst h1; subst hn; subst hp; subst hp2
            refine ⟨safe, a, hsan, ha, rfl, rfl, rfl, rfl, rfl, rfl, rfl, ?_⟩
            intro s
            unfold GLPModel.add_goal
            dsimp only
            rw [if_neg hdup, ha]
            dsimp only
            rw [hsan]
            dsimp only
            rw [if_neg hcol, hprob]

/-- C6 witness: registering goal g on a fresh model creates n_g and p_g
and the linking constraint goal_link_g. -/
theorem add_goal_synthesis_witness :
    ∃ safe a, _sanitize_name exGoalAttain.name = .ok safe ∧
      toAffine exGoalAttain.expression = some a ∧
      (⟨"n_g", some 0, none, .Continuous⟩ : LpVariable) =
        ⟨"n_" ++ safe, some 0, none, .Continuous⟩ ∧
      (⟨"p_g", some 0, none, .Continuous⟩ : LpVariable) =
        ⟨"p_" ++ safe, some 0, none, .Continuous⟩ ∧
      exModelG.«variables» = (GLPModel.init "m" true).«variables» ++
        [("n_" ++ safe, ⟨"n_g", some 0, none, .Continuous⟩),
         ("p_" ++ safe, ⟨"p_g", some 0, none, .Continuous⟩)] ∧
      exModelG.problem.constraints = (GLPModel.init "m" true).problem.constraints ++
        [("goal_link_" ++ safe,
          ⟨⟨a.terms ++ [("n_" ++ safe, 1), ("p_" ++ safe, -1)], a.const⟩, .EQ,
            exGoalAttain.target⟩)] ∧
      exModelG.goals = (GLPModel.init "m" true).goals ++
        [(exGoalAttain.name, exGoalAttain)] ∧
      exModelG.dev_vars = (GLPModel.init "m" true).dev_vars ++
        [(exGoalAttain.name, (⟨"n_g", some 0, none, .Continuous⟩,
          ⟨"p_g", some 0, none, .Continuous⟩))] ∧
      exModelG.constraints = (GLPModel.init "m" true).constraints ∧
      (∀ s : GoalSense, (GLPModel.init "m" true).add_goal { exGoalAttain with sense := s } =
        ({ exModelG with goals := (GLPModel.init "m" true).goals ++
            [(exGoalAttain.name, { exGoalAttain with sense := s })] },
          .ok (⟨"n_g", some 0, none, .Continuous⟩, ⟨"p_g", some 0, none, .Continuous⟩))) :=
  add_goal_synthesis (GLPModel.init "m" true) exGoalAttain exModelG
    ⟨"n_g", some 0, none, .Continuous⟩ ⟨"p_g", some 0, none, .Continuous⟩ (by decide)

/-- C8: on every input on which it succeeds, the sanitizer returns a
non-empty token of word characters only (letters, digits, underscore)
with no repeated underscores, it is idempotent, and it fails with
InvalidName exactly when the sanitized result would be empty. -/
theorem sanitize_name_spec (name : String) :
    (∀ r, _sanitize_name name = .ok r →
      r ≠ "" ∧ isValidToken r = true ∧ hasDoubleUS r.data = false ∧
        _sanitize_name r = .ok r) ∧
    (_sanitize_name name = .error .InvalidName ↔ sanitizePipeline name.data = []) := by
  constructor
  · intro r h
    unfold _sanitize_name at h
    dsimp only at h
    split at h
    · exact Except.noConfusion h
    · rename_i hne
      injection h with h1
      subst h1
      refine ⟨?_, ?_, ?_, ?_⟩
      · intro hc
        exact hne (congrArg String.data hc)
      · unfold isValidToken
        rw [List.all_eq_true]
        intro c hc
        exact word_of_mem_pipeline _ _ hc
      · exact (hasDoubleUS_reSubRuns _).1
      · unfold _sanitize_name
        dsimp only
        rw [sanitizePipeline_fix name.data]
        rw [if_neg hne]
  · unfold _sanitize_name
    dsimp only
    split
    · rename_i he
      simp [he]
    · rename_i hne
      simp [hne]

/-- C8 witness: sanitizing a raw name with blanks and punctuation yields
the non-empty word-only token a_b_ with no repeated underscores, and the
sanitizer is idempotent on it. -/
theorem sanitize_name_spec_witness :
    ("a_b_" : String) ≠ "" ∧ isValidToken "a_b_" = true ∧
      hasDoubleUS ("a_b_" : String).data = false ∧
      _sanitize_name "a_b_" = .ok "a_b_" :=
  (sanitize_name_spec " a b!").1 "a_b_" (by decide)

/-- C4: whenever the objective assembly of solve_weighted succeeds, the
objective set on the problem evaluates, under every valuation of the
variable symbols, to cost_weight times the cost expression (zero when
none is given) plus, over all registered goals, w-minus times the
n-deviation plus w-plus times the p-deviation, where the pair is the
override-map entry when the goal name is present in it and the goal
weight on both sides otherwise. -/
theorem solve_weighted_objective_formula (m : GLPModel)
    (gw : Option (List (String × ℚ × ℚ))) (ce : Option LpAffineExpression)
    (cw : ℚ) (keep : Bool) (eng : Engine) (v : String → ℚ)
    (h : ∃ res, (m.solve_weighted gw ce cw keep eng).2 = .ok res) :
    ∃ obj, (m.solve_weighted gw ce cw keep eng).1.problem.objective = some obj ∧
      obj.evalWith v =
        cw * ((ce.map (fun e => e.evalWith v)).getD 0) +
        (m.goals.map (fun kv =>
          match m.dev_vars.lookup kv.1 with
          | some np => (specGoalWeights gw kv.1 kv.2).1 * v np.1.name +
              (specGoalWeights gw kv.1 kv.2).2 * v np.2.name
          | none => 0)).sum := by
  obtain ⟨res, hres⟩ := h
  rcases hb : buildWeightedDevs m.dev_vars gw m.goals with e | wd
  · unfold GLPModel.solve_weighted at hres
    rw [hb] at hres
    exact Except.noConfusion hres
  · unfold GLPModel.solve_weighted at hres ⊢
    rw [hb] at hres ⊢
    dsimp only at hres ⊢
    by_cases ht : assembleObjTerms ce cw wd = []
    · rw [if_pos ht] at hres
      exact Except.noConfusion hres
    · rw [if_neg ht]
      refine ⟨lpSumAffine (assembleObjTerms ce cw wd), rfl, ?_⟩
      have hsum := buildWeightedDevs_ok _ _ _ _ hb v
      rw [evalWith_lpSumAffine, ← hsum]
      cases ce with
      | none =>
        by_cases hw : wd = []
        · exact absurd (by simp [assembleObjTerms, hw]) ht
        · rw [show assembleObjTerms none cw wd = [devsToAffine wd] from by
            simp [assembleObjTerms, hw]]
          simp [evalWith_devsToAffine]
      | some cexpr =>
        by_cases hcw : cw = 0
        · subst hcw
          by_cases hw : wd = []
          · exact absurd (by simp [assembleObjTerms, hw]) ht
          · rw [show assembleObjTerms (some cexpr) 0 wd = [devsToAffine wd] from by
              simp [assembleObjTerms, hw]]
            simp [evalWith_devsToAffine]
        · by_cases hw : wd = []
          · subst hw
            rw [show assembleObjTerms (some cexpr) cw [] =
                [LpAffineExpression.smul cw cexpr] from by simp [assembleObjTerms, hcw]]
            simp [evalWith_smul]
          · rw [show assembleObjTerms (some cexpr) cw wd =
                [LpAffineExpression.smul cw cexpr, devsToAffine wd] from by
              simp [assembleObjTerms, hcw, hw]]
            simp [evalWith_smul, evalWith_devsToAffine]

/-- C4 witness: on the one-goal model with no overrides and no cost term
the assembled objective exists and satisfies the formula under the
all-one valuation. -/
theorem solve_weighted_objective_formula_witness :
    ∃ obj, (exModelMU.solve_weighted none none 0 false
        exEngineInfeasible).1.problem.objective = some obj ∧
      obj.evalWith (fun _ => 1) =
        0 * (((none : Option LpAffineExpression).map
          (fun e => e.evalWith (fun _ => 1))).getD 0) +
        (exModelMU.goals.map (fun kv =>
          match exModelMU.dev_vars.lookup kv.1 with
          | some np => (specGoalWeights none kv.1 kv.2).1 * (fun _ => (1 : ℚ)) np.1.name +
              (specGoalWeights none kv.1 kv.2).2 * (fun _ => (1 : ℚ)) np.2.name
          | none => 0)).sum :=
  solve_weighted_objective_formula exModelMU none none 0 false exEngineInfeasible
    (fun _ => 1) ⟨_, rfl⟩

/-- C5: under the registry invariant that every goal has its deviation
pair (which add_goal establishes), solve_weighted raises EmptyObjective
exactly when there is no registered goal and no effective cost term; in
every other case, for every engine outcome whatsoever, it raises
nothing and returns the record with the engine status, one value slot
per registered variable (read through the solver symbol, none when the
engine leaves it unassigned), each registered goal's deviation pair,
and no objective value under a non-optimal status. -/
theorem solve_weighted_status_contract (m : GLPModel)
    (gw : Option (List (String × ℚ × ℚ))) (ce : Option LpAffineExpression)
    (cw : ℚ) (keep : Bool) (eng : Engine)
    (hinv : m.goalsHaveDevs = true) :
    solveContract m gw ce cw keep eng := by
  have hall : ∀ kv ∈ m.goals, (m.dev_vars.lookup kv.1).isSome = true := by
    intro kv hkv
    exact List.all_eq_true.mp hinv kv hkv
  obtain ⟨wd, hwd, hiff⟩ := buildWeightedDevs_total m.dev_vars gw m.goals hall
  unfold solveContract GLPModel.solve_weighted
  rw [hwd]
  dsimp only
  constructor
  · by_cases ht : assembleObjTerms ce cw wd = []
    · rw [if_pos ht]
      obtain ⟨hcost, hw⟩ := (assembleObjTerms_eq_nil ce cw wd).mp ht
      simp [hiff.mp hw, hcost]
    · rw [if_neg ht]
      constructor
      · intro hcontra
        exact Except.noConfusion hcontra
      · rintro ⟨hg, hcost⟩
        exact absurd ((assembleObjTerms_eq_nil ce cw wd).mpr ⟨hcost, hiff.mpr hg⟩) ht
  · intro hcond
    have ht : assembleObjTerms ce cw wd ≠ [] := by
      intro hteq
      obtain ⟨hcost, hw⟩ := (assembleObjTerms_eq_nil ce cw wd).mp hteq
      rcases hcond with hg | ⟨hce, hcw⟩
      · exact hg (hiff.mp hw)
      · rcases hcost with h1 | h1
        · exact hce h1
        · exact hcw h1
    rw [if_neg ht]
    dsimp only
    obtain ⟨hkeys, hmem⟩ := dev_extraction m.goals m.dev_vars eng hall
    refine ⟨_, rfl, rfl, rfl, hkeys, hmem, ?_⟩
    intro hstat
    exact if_neg hstat

/-- C5 witness: the contract holds on the one-goal model with an
infeasible engine that assigns nothing. -/
theorem solve_weighted_status_contract_witness :
    exModelMU.goalsHaveDevs = true ∧
    solveContract exModelMU none none 0 false exEngineInfeasible :=
  ⟨by decide, solve_weighted_status_contract exModelMU none none 0 false
    exEngineInfeasible (by decide)⟩

end GLP
